import Mathlib

/-!
Verification development for the Python-Sandboxed-REPL coordination layer.

The development shallowly embeds the coordination code of the repository:

* `PyodideManager.execute` (src/pyodide-manager.ts, lines 145-208): the
  Execution Serializer.  Its body (the code run between acquiring and
  releasing the `executionLock` busy flag) is embedded as a pure function
  from a manager state; the busy-flag protocol itself (the spin-wait at
  lines 147-150 and the release in the outer `finally` at line 206) is
  embedded separately as a labelled transition system over the states of
  concurrently invoked callers, reflecting the JavaScript event loop's
  run-to-completion semantics.
* `WorkerPool` (the Pool Dispatcher): `execute`, `selectWorkerRandom`,
  `handleWorkerMessage`, the timeout callback and `terminate`, each as a
  pure function returning the updated pool state together with the list
  of side effects it performs (promise resolutions/rejections, timer
  operations, messages posted to workers).
* `handleExecute` (src/server.ts): the HTTP handler's request validation
  and `resetGlobals` policy.

The embedded interpreter runtime (Pyodide) is an external collaborator of
the repository (spec section 1 places it out of scope); it is modelled
abstractly by the outcomes its operations can produce.
-/

namespace SandboxRepl

/-- Status field of `ExecutionResult` (src/types.ts): `"success" | "exception" | "error"`. -/
inductive Status where
  | success
  | exception
  | error
deriving DecidableEq, Repr

/-- ExecutionResult envelope from src/types.ts: `status`, `result : string | null`,
`execution_time_ms`.  The optional `error` field is only used by HTTP-level error
responses, never by the serializer, and is omitted. -/
structure ExecutionResult where
  status : Status
  result : Option String
  execution_time_ms : Nat
deriving DecidableEq, Repr

/-- Outcome of one `runPythonAsync` invocation on the runtime handle: the promise
either resolves with a value (`undefined` modelled as `none`, a produced value
modelled by its display string, i.e. what `result.toString()` yields at
src/pyodide-manager.ts line 181) or rejects with a code-level error. -/
inductive RunOutcome where
  | ok (value : Option String)
  | err
deriving DecidableEq, Repr

/-- Abstract model of one runtime handle (`PyodideInterface`).  `runAsyncGlobal code`
is `runPythonAsync(code)` against the persistent global namespace (line 171);
`runAsyncFresh code` is `runPythonAsync(code, { globals: context })` with a freshly
created empty context `pyodide.toPy({})` (lines 163, 170); `lastExcRepr` is the value
of `runPython("import sys;repr(sys.last_exc)")` in the catch block (line 174). -/
structure PyRuntime where
  runAsyncGlobal : String → RunOutcome
  runAsyncFresh : String → RunOutcome
  lastExcRepr : String

/-- Outcome of one `PyodideManager.execute` call: the returned promise either
resolves with a result envelope (`ret`) or rejects (`thrown`), the latter being a
hard failure surfaced to the caller. -/
inductive ExecOutcome where
  | ret (r : ExecutionResult)
  | thrown (msg : String)
deriving Repr

/-- The fields of `PyodideManager` (src/pyodide-manager.ts lines 59-63) relevant to
its `execute` body: the nullable runtime handle and the execution counter.  The
`executionLock` busy flag is modelled by the transition system below. -/
structure ManagerState where
  pyodide : Option PyRuntime
  executionCount : Nat

/-- Embedding of the body of `PyodideManager.execute` (src/pyodide-manager.ts lines
152-207), the code executed after the busy flag has been acquired and before it is
released.  Control flow of the source:

* lines 157-159: if the handle is null, throw `"Pyodide not initialized"`; the outer
  `finally` releases the lock and the promise rejects — no counter increment occurs
  on this path, since the increment at line 177 sits inside the inner `finally`,
  which is only reached once the inner `try` at line 168 has been entered;
* lines 162-164: when `resetGlobals` is set a fresh empty context is created;
* lines 168-171: `runPythonAsync` with the fresh context, or the persistent globals;
* lines 172-175: a rejection is caught, `result` is replaced by the runtime's
  last-error representation and `status` becomes `exception`;
* lines 176-199 (inner `finally`): the counter is incremented exactly once, the
  produced value is converted to its display string (`null` when `undefined`), the
  value proxy and the context are destroyed, and the envelope is returned.

`elapsedMs` abstracts the wall-clock measurement `Date.now() - startTime`. -/
def PyodideManager.execute (s : ManagerState) (code : String) (resetGlobals : Bool)
    (elapsedMs : Nat) : ExecOutcome × ManagerState :=
  match s.pyodide with
  | none => (ExecOutcome.thrown "Pyodide not initialized", s)
  | some py =>
    match (if resetGlobals then py.runAsyncFresh code else py.runAsyncGlobal code) with
    | RunOutcome.ok v =>
        (ExecOutcome.ret { status := Status.success, result := v, execution_time_ms := elapsedMs },
         { s with executionCount := s.executionCount + 1 })
    | RunOutcome.err =>
        (ExecOutcome.ret { status := Status.exception, result := some py.lastExcRepr,
                           execution_time_ms := elapsedMs },
         { s with executionCount := s.executionCount + 1 })

/-- A manager whose `initialize` has not run: the runtime handle is absent. -/
def uninitializedManager : ManagerState :=
  { pyodide := none, executionCount := 0 }

/-- Modelled from the spec: the external interpreter runtime (out of scope of `src/`,
spec section 1) in the state reached after a prior request executed `x=42` against
the persistent global namespace with reset disabled.  Per the spec's testable
property (section 8) and the repository's own test suite (src/index.test.ts, test 6),
evaluating `"x"` against the persistent namespace produces the value `42`, while
evaluating `"x"` under `resetNamespace` resolves successfully with a value whose
display string is a `NameError` representation (the test asserts status `success`
and a result containing `NameError`). -/
def pyAfterAssign42 : PyRuntime where
  runAsyncGlobal := fun code =>
    if code = "x" then RunOutcome.ok (some "42") else RunOutcome.ok none
  runAsyncFresh := fun code =>
    if code = "x" then RunOutcome.ok (some "NameError(name x is not defined)")
    else RunOutcome.ok none
  lastExcRepr := "NameError(name x is not defined)"

/-- Manager state holding the runtime of `pyAfterAssign42`. -/
def managerAfterAssign42 : ManagerState :=
  { pyodide := some pyAfterAssign42, executionCount := 1 }

/-!
Request identifiers.  `WorkerPool.execute` builds the string
`` `req-${this.nextRequestId++}` `` (src/unnamed/part_000 line 129).  To reason about
collision freedom of these keys we prove that `Nat.repr` is injective, via a
structural description of the digit list it produces and a decoding function.
-/

/-- Digit list of a natural number, most significant first, as produced by
`Nat.toDigits 10` (a single `'0'` for zero). -/
def decRep (n : Nat) : List Char :=
  if n < 10 then [Nat.digitChar n]
  else decRep (n / 10) ++ [Nat.digitChar (n % 10)]
decreasing_by exact Nat.div_lt_self (by omega) (by omega)

/-- Value of a decimal digit character; `0` on anything else. -/
def charVal (c : Char) : Nat :=
  if c = '0' then 0 else
  if c = '1' then 1 else
  if c = '2' then 2 else
  if c = '3' then 3 else
  if c = '4' then 4 else
  if c = '5' then 5 else
  if c = '6' then 6 else
  if c = '7' then 7 else
  if c = '8' then 8 else
  if c = '9' then 9 else 0

theorem charVal_digitChar : ∀ d, d < 10 → charVal (Nat.digitChar d) = d := by decide

/-- Folding a decimal accumulator over the digits of `decRep n` recovers `n`. -/
theorem foldl_decRep (n : Nat) :
    ∀ a, (decRep n).foldl (fun acc c => 10 * acc + charVal c) a =
      a * 10 ^ (decRep n).length + n := by
  induction n using Nat.strong_induction_on with
  | _ n ih =>
    intro a
    by_cases h : n < 10
    · rw [decRep]
      simp only [if_pos h, List.foldl_cons, List.foldl_nil, List.length_singleton]
      rw [charVal_digitChar n h]
      ring
    · rw [decRep]
      simp only [if_neg h, List.foldl_append, List.foldl_cons, List.foldl_nil,
        List.length_append, List.length_singleton]
      have hlt : n / 10 < n := Nat.div_lt_self (by omega) (by omega)
      rw [ih (n / 10) hlt a]
      have hm : n % 10 < 10 := Nat.mod_lt _ (by omega)
      rw [charVal_digitChar _ hm]
      have := Nat.div_add_mod n 10
      have hpow : a * 10 ^ ((decRep (n / 10)).length + 1) =
          (a * 10 ^ (decRep (n / 10)).length) * 10 := by ring
      omega

theorem decRep_injective : Function.Injective decRep := by
  intro m n h
  have hm := foldl_decRep m 0
  have hn := foldl_decRep n 0
  rw [h] at hm
  omega

/-- `Nat.toDigitsCore 10` with sufficient fuel computes `decRep` (with the
accumulated suffix appended). -/
theorem toDigitsCore_eq_decRep :
    ∀ fuel n ds, n < fuel →
      Nat.toDigitsCore 10 fuel n ds = decRep n ++ ds := by
  intro fuel
  induction fuel with
  | zero => intro n ds h; omega
  | succ f ih =>
    intro n ds h
    show (if n / 10 = 0 then Nat.digitChar (n % 10) :: ds
          else Nat.toDigitsCore 10 f (n / 10) (Nat.digitChar (n % 10) :: ds)) =
        decRep n ++ ds
    by_cases hz : n / 10 = 0
    · have hn : n < 10 := by omega
      rw [if_pos hz, decRep]
      simp only [if_pos hn]
      rw [Nat.mod_eq_of_lt hn]
      rfl
    · have hge : ¬ n < 10 := by
        intro hlt
        exact hz (Nat.div_eq_of_lt hlt)
      have hfuel : n / 10 < f := by
        have h1 : n / 10 < n := Nat.div_lt_self (by omega) (by omega)
        omega
      have hrep : decRep n = decRep (n / 10) ++ [Nat.digitChar (n % 10)] := by
        conv_lhs => rw [decRep]
        rw [if_neg hge]
      rw [if_neg hz, ih (n / 10) (Nat.digitChar (n % 10) :: ds) hfuel, hrep]
      simp

theorem toDigits_eq_decRep (n : Nat) : Nat.toDigits 10 n = decRep n := by
  have h := toDigitsCore_eq_decRep (n + 1) n [] (Nat.lt_succ_self n)
  rw [List.append_nil] at h
  exact h

theorem natRepr_injective : Function.Injective Nat.repr := by
  intro m n h
  apply decRep_injective
  rw [← toDigits_eq_decRep, ← toDigits_eq_decRep]
  exact List.asString_inj.mp h

/-- Request id allocated by the dispatcher for counter value `n`:
`` `req-${n}` `` (src/unnamed/part_000 line 129). -/
def reqId (n : Nat) : String :=
  "req-" ++ Nat.repr n

theorem reqId_injective : Function.Injective reqId := by
  intro m n h
  apply natRepr_injective
  have hdata : (reqId m).data = (reqId n).data := by rw [h]
  rw [reqId, reqId] at hdata
  simp only [String.data_append] at hdata
  exact String.ext (List.append_cancel_left hdata)

/-!
The busy-flag protocol of `PyodideManager.execute` (src/pyodide-manager.ts lines
146-150 and 200-207) under concurrent callers, as a labelled transition system.

JavaScript executes each task to completion: between two `await` suspension
points a caller's code runs atomically.  In the source, the final evaluation of
the `while (this.executionLock)` condition and the assignment
`this.executionLock = true` happen inside one such synchronous segment (there is
no `await` between them), so flag test and flag set form one atomic step.
Likewise the entire cleanup (the inner `finally` at lines 176-199: counter
increment, result conversion, proxy and context release, building the return
value) and the flag clear in the outer `finally` (line 206) run in one
synchronous segment after the last `await`; the model splits them into two steps
(`finishRun` then `cleanup`), which only adds interleavings and therefore makes
the proved exclusion property stronger.
-/

/-- Phase of one concurrent `execute` invocation.  `acquiring`: spinning in the
while-loop (lines 147-149); `running`: holds the flag, the runtime invocation
(`runPythonAsync`, lines 168-171) is in flight; `cleaning`: holds the flag,
performing the cleanup phase (result conversion, RawValue and Namespace release,
lines 176-199); `done`: flag cleared (line 206), invocation complete. -/
inductive ExecPhase where
  | acquiring
  | running
  | cleaning
  | done
deriving DecidableEq, Repr

/-- Global state of one `PyodideManager` instance under concurrent `execute`
callers: the shared `executionLock` flag and the phase of each caller (callers
indexed by `Nat`; a caller that never invokes `execute` simply stays in
`acquiring` without ever being scheduled). -/
structure LockState where
  executionLock : Bool
  phase : Nat → ExecPhase

/-- Transition relation of the busy-flag protocol.  `poll` is the caller
re-observing a set flag and going back to sleep (lines 147-149); `acquire` is the
atomic observe-clear-then-set step (lines 147-150); `finishRun` is the runtime
invocation completing; `cleanup` is the cleanup phase completing and the flag
being cleared (lines 176-207). -/
inductive LockStep : LockState → LockState → Prop where
  | poll (s : LockState) (i : Nat) :
      s.phase i = ExecPhase.acquiring → s.executionLock = true → LockStep s s
  | acquire (s : LockState) (i : Nat) :
      s.phase i = ExecPhase.acquiring → s.executionLock = false →
      LockStep s { executionLock := true,
                   phase := Function.update s.phase i ExecPhase.running }
  | finishRun (s : LockState) (i : Nat) :
      s.phase i = ExecPhase.running →
      LockStep s { s with phase := Function.update s.phase i ExecPhase.cleaning }
  | cleanup (s : LockState) (i : Nat) :
      s.phase i = ExecPhase.cleaning →
      LockStep s { executionLock := false,
                   phase := Function.update s.phase i ExecPhase.done }

/-- Initial state: flag clear, every caller about to enter the spin-wait. -/
def LockState.init : LockState :=
  { executionLock := false, phase := fun _ => ExecPhase.acquiring }

/-- States reachable from the initial state by any interleaving of callers. -/
def LockReachable (s : LockState) : Prop :=
  Relation.ReflTransGen LockStep LockState.init s

/-- Caller `i` has begun its execution and has not yet fully completed it,
cleanup phase included. -/
def LockState.busy (s : LockState) (i : Nat) : Prop :=
  s.phase i = ExecPhase.running ∨ s.phase i = ExecPhase.cleaning

/-- Inductive invariant: every busy caller holds the flag, and at most one caller
is busy. -/
def LockInv (s : LockState) : Prop :=
  (∀ i, s.busy i → s.executionLock = true) ∧
  (∀ i j, s.busy i → s.busy j → i = j)

theorem lockInv_init : LockInv LockState.init := by
  constructor
  · intro i hb
    rcases hb with h | h <;> simp [LockState.init] at h
  · intro i j hi _
    rcases hi with h | h <;> simp [LockState.init] at h

theorem lockInv_step {s t : LockState} (hst : LockStep s t) (hinv : LockInv s) :
    LockInv t := by
  obtain ⟨hflag, huniq⟩ := hinv
  cases hst with
  | poll i hp hl => exact ⟨hflag, huniq⟩
  | acquire i hp hl =>
    have hnobusy : ∀ k, ¬ s.busy k := by
      intro k hk
      rw [hflag k hk] at hl
      exact Bool.noConfusion hl
    constructor
    · intro k _
      rfl
    · intro k l hk hl'
      have hk' : Function.update s.phase i ExecPhase.running k = ExecPhase.running ∨
          Function.update s.phase i ExecPhase.running k = ExecPhase.cleaning := hk
      have hl'' : Function.update s.phase i ExecPhase.running l = ExecPhase.running ∨
          Function.update s.phase i ExecPhase.running l = ExecPhase.cleaning := hl'
      by_cases hki : k = i
      · by_cases hli : l = i
        · rw [hki, hli]
        · rw [Function.update_noteq hli] at hl''
          exact absurd hl'' (hnobusy l)
      · rw [Function.update_noteq hki] at hk'
        exact absurd hk' (hnobusy k)
  | finishRun i hp =>
    have hbusy_of : ∀ m,
        (Function.update s.phase i ExecPhase.cleaning m = ExecPhase.running ∨
          Function.update s.phase i ExecPhase.cleaning m = ExecPhase.cleaning) →
        s.busy m := by
      intro m hm
      by_cases hmi : m = i
      · subst hmi
        exact Or.inl hp
      · rw [Function.update_noteq hmi] at hm
        exact hm
    exact ⟨fun k hk => hflag k (hbusy_of k hk),
      fun k l hk hl' => huniq k l (hbusy_of k hk) (hbusy_of l hl')⟩
  | cleanup i hp =>
    have hnone : ∀ m,
        ¬ (Function.update s.phase i ExecPhase.done m = ExecPhase.running ∨
            Function.update s.phase i ExecPhase.done m = ExecPhase.cleaning) := by
      intro m hm
      by_cases hmi : m = i
      · subst hmi
        rw [Function.update_same] at hm
        rcases hm with h | h <;> cases h
      · rw [Function.update_noteq hmi] at hm
        exact hmi (huniq m i hm (Or.inr hp))
    exact ⟨fun k hk => absurd hk (hnone k), fun k l hk _ => absurd hk (hnone k)⟩

theorem lockInv_reachable {s : LockState} (h : LockReachable s) : LockInv s := by
  induction h with
  | refl => exact lockInv_init
  | tail _ hstep ih => exact lockInv_step hstep ih

/-!
WorkerPool (the Pool Dispatcher), embedded from src/unnamed/part_000.  Each public
operation is a pure function returning the updated pool state paired with the list
of side effects it performs, in source order: promise rejections/resolutions,
timer creation and cancellation, and messages posted to workers.
-/

/-- JavaScript `a || d` on an optional string: `undefined` and the empty string
are falsy. -/
def jsOr (a : Option String) (d : String) : String :=
  match a with
  | some s => if s = "" then d else s
  | none => d

/-- JavaScript truthiness of an optional string used as a guard (`message.id &&`):
`undefined` and `""` are falsy. -/
def jsTruthyStr (a : Option String) : Option String :=
  match a with
  | some s => if s = "" then none else some s
  | none => none

/-- JavaScript `a || d` on an optional number (`config.pyodideConfig.timeout || 30000`):
`undefined` and `0` are falsy. -/
def jsOrNat (a : Option Nat) (d : Nat) : Nat :=
  match a with
  | some n => if n = 0 then d else n
  | none => d

/-- WorkerState (src/unnamed/part_000 lines 8-12).  The `worker` handle itself is
opaque; a worker is addressed by its position in the `workers` list (the index used
by `postMessage` at line 149) and carries its `workerId`. -/
structure WorkerState where
  ready : Bool
  workerId : Nat
deriving DecidableEq, Repr

/-- PendingRequest (src/unnamed/part_000 lines 14-18).  The `resolve`/`reject`
continuations act only through the effects below; the stored `timeout` timer handle
is modelled as a number. -/
structure PendingRequest where
  timeout : Nat
deriving DecidableEq, Repr

/-- Mutable fields of `WorkerPool` (src/unnamed/part_000 lines 28-33).  The pending
map is an association list with the insertion-ordered `Map` semantics used below. -/
structure PoolState where
  workers : List WorkerState
  pendingRequests : List (String × PendingRequest)
  nextRequestId : Nat
  executionCount : Nat
deriving DecidableEq, Repr

/-- Observable side effects of the dispatcher, one constructor per call site:

* `rejectNoWorkers id`: `reject(new Error("No workers available"))`, line 135 —
  the immediate rejection of the caller when no worker is ready;
* `setTimer t id ms`: the `setTimeout(..., ms)` call creating timer `t` for
  request `id`, lines 140-143;
* `postExecute w id code rg`: `workers[w].worker.postMessage({type:"execute",...})`,
  lines 149-154;
* `clearTimer t`: `clearTimeout`, lines 111, 118, 191;
* `resolveRequest id r`: `pending.resolve(message.result!)`, line 113 (`r` is the
  message's `result` field, passed through unchecked);
* `rejectError id msg`: `pending.reject(new Error(message.error || "Worker execution
  failed"))`, line 120;
* `rejectTimeout id`: `reject(new Error("Request timeout"))`, line 142;
* `rejectTerminated id`: `pending.reject(new Error("WorkerPool terminated"))`,
  line 192;
* `terminateWorker wid`: `state.worker.terminate()`, line 185. -/
inductive PoolEffect where
  | rejectNoWorkers (requestId : String)
  | setTimer (timer : Nat) (requestId : String) (delayMs : Nat)
  | postExecute (workerIdx : Nat) (requestId : String) (code : String) (resetGlobals : Bool)
  | clearTimer (timer : Nat)
  | resolveRequest (requestId : String) (result : Option ExecutionResult)
  | rejectError (requestId : String) (msg : String)
  | rejectTimeout (requestId : String)
  | rejectTerminated (requestId : String)
  | terminateWorker (workerId : Nat)
deriving DecidableEq, Repr

/-- Message type tag of `WorkerMessage` (src/unnamed/part_000 lines 20-26). -/
inductive MsgType where
  | result
  | error
  | ready
deriving DecidableEq, Repr

/-- WorkerMessage (src/unnamed/part_000 lines 20-26); every field except `type` is
optional. -/
structure WorkerMessage where
  type : MsgType
  workerId : Option Nat := none
  id : Option String := none
  result : Option ExecutionResult := none
  error : Option String := none
deriving DecidableEq, Repr

/-- `Map.get` on the pending-request map. -/
def mapGet (m : List (String × PendingRequest)) (k : String) : Option PendingRequest :=
  match m with
  | [] => none
  | (k', v) :: rest => if k' = k then some v else mapGet rest k

/-- `Map.set` on the pending-request map: overwrite in place when the key exists,
append otherwise (JavaScript `Map` insertion-order semantics). -/
def mapSet (m : List (String × PendingRequest)) (k : String) (v : PendingRequest) :
    List (String × PendingRequest) :=
  match m with
  | [] => [(k, v)]
  | (k', v') :: rest => if k' = k then (k, v) :: rest else (k', v') :: mapSet rest k v

/-- `Map.delete` on the pending-request map: remove the entry with the key, if any. -/
def mapDelete (m : List (String × PendingRequest)) (k : String) :
    List (String × PendingRequest) :=
  match m with
  | [] => []
  | (k', v') :: rest => if k' = k then rest else (k', v') :: mapDelete rest k

/-- `readyWorkers` computed by `selectWorkerRandom` (src/unnamed/part_000 lines
162-164): `workers.map((state, idx) => ({idx, state})).filter(({state}) => state.ready)`. -/
def readyWorkers (ws : List WorkerState) : List (Nat × WorkerState) :=
  ws.enum.filter (fun p => p.2.ready)

/-- `WorkerPool.selectWorkerRandom` (src/unnamed/part_000 lines 160-172).  The draw
`randomIndex = Math.floor(Math.random() * readyWorkers.length)` is passed in as a
parameter (callers instantiate it below `readyWorkers.length`); the source's `-1`
sentinel is `none`. -/
def selectWorkerRandom (ws : List WorkerState) (randomIndex : Nat) : Option Nat :=
  let rw := readyWorkers ws
  if rw.length = 0 then none
  else (rw.get? randomIndex).map Prod.fst

/-- `WorkerPool.execute` (src/unnamed/part_000 lines 126-158).  Source order:

1. line 129: allocate `` `req-${this.nextRequestId++}` `` — note the counter is
   advanced before worker availability is checked;
2. line 132: select a worker;
3. lines 134-137: if none (`-1`), reject with "No workers available" and return;
4. lines 140-143: create the timeout timer with delay `timeout || 30000`
   (`timerHandle` abstracts the handle returned by `setTimeout`);
5. line 146: register the PendingRequest;
6. lines 149-154: post the tagged `execute` message to the selected worker;
7. line 156: increment `executionCount`. -/
def WorkerPool.execute (s : PoolState) (code : String) (resetGlobals : Bool)
    (randomIndex : Nat) (timerHandle : Nat) (configTimeout : Option Nat) :
    PoolState × List PoolEffect :=
  let requestId := reqId s.nextRequestId
  let s1 : PoolState := { s with nextRequestId := s.nextRequestId + 1 }
  match selectWorkerRandom s1.workers randomIndex with
  | none => (s1, [PoolEffect.rejectNoWorkers requestId])
  | some workerIdx =>
      ({ s1 with
          pendingRequests := mapSet s1.pendingRequests requestId { timeout := timerHandle },
          executionCount := s1.executionCount + 1 },
       [PoolEffect.setTimer timerHandle requestId (jsOrNat configTimeout 30000),
        PoolEffect.postExecute workerIdx requestId code resetGlobals])

/-- `WorkerPool.handleWorkerMessage` (src/unnamed/part_000 lines 105-124): on a
`result` or `error` message carrying a (truthy) id that matches a pending request,
clear its timer, delete the entry, and resolve respectively reject the caller; any
other message — `ready`, a missing/empty id, or an id with no matching entry (an
orphaned response) — leaves the pool untouched with no effects. -/
def WorkerPool.handleWorkerMessage (s : PoolState) (msg : WorkerMessage) :
    PoolState × List PoolEffect :=
  match msg.type, jsTruthyStr msg.id with
  | MsgType.result, some i =>
      match mapGet s.pendingRequests i with
      | some pending =>
          ({ s with pendingRequests := mapDelete s.pendingRequests i },
           [PoolEffect.clearTimer pending.timeout, PoolEffect.resolveRequest i msg.result])
      | none => (s, [])
  | MsgType.error, some i =>
      match mapGet s.pendingRequests i with
      | some pending =>
          ({ s with pendingRequests := mapDelete s.pendingRequests i },
           [PoolEffect.clearTimer pending.timeout,
            PoolEffect.rejectError i (jsOr msg.error "Worker execution failed")])
      | none => (s, [])
  | _, _ => (s, [])

/-- Body of the timeout callback created at src/unnamed/part_000 lines 140-143:
`pendingRequests.delete(requestId); reject(new Error("Request timeout"))`.  The
callback runs only while its timer is alive, which (because every removal of a
pending entry first clears its timer) is exactly while the entry is still pending;
the transition system below imposes that guard. -/
def WorkerPool.onTimeout (s : PoolState) (requestId : String) :
    PoolState × List PoolEffect :=
  ({ s with pendingRequests := mapDelete s.pendingRequests requestId },
   [PoolEffect.rejectTimeout requestId])

/-- `WorkerPool.terminate` (src/unnamed/part_000 lines 183-195): terminate every
worker unconditionally, clear the worker list, then for every outstanding
PendingRequest clear its timer and reject it with "WorkerPool terminated", and
clear the pending map. -/
def WorkerPool.terminate (s : PoolState) : PoolState × List PoolEffect :=
  ({ s with workers := [], pendingRequests := [] },
   s.workers.map (fun w => PoolEffect.terminateWorker w.workerId) ++
     s.pendingRequests.flatMap
       (fun p => [PoolEffect.clearTimer p.2.timeout, PoolEffect.rejectTerminated p.1]))

/-- `WorkerPool.pyodideLoaded` (src/unnamed/part_000 lines 174-177): true only when
the pool is nonempty and every worker is ready. -/
def WorkerPool.pyodideLoaded (s : PoolState) : Bool :=
  decide (s.workers.length > 0) && s.workers.all (fun w => w.ready)

/-!
HTTP handler `handleExecute` (src/server.ts lines 204-241): request validation and
the `resetGlobals` policy.  The handler body is embedded up to the dispatch
decision; the HTTP response serialization is transport, out of scope.
-/

/-- ExecuteRequest body (src/types.ts lines 14-17); an absent field is `none`.
Non-string `code` values are excluded by the typed model; the source also rejects
them (the `typeof body.code !== "string"` half of the check at line 214). -/
structure ExecuteRequest where
  code : Option String
  reset_globals : Option Bool
deriving DecidableEq, Repr

/-- Where `handleExecute` routes the request (src/server.ts lines 226-228):
the worker pool when one was created (`workerCount > 0` in `startServer`,
lines 125-146), else the single `PyodideManager`. -/
inductive DispatchTarget where
  | pool
  | manager
deriving DecidableEq, Repr

/-- Action taken by `handleExecute` on a parsed body. -/
inductive HandlerAction where
  | badRequest (error : String)
  | dispatch (target : DispatchTarget) (code : String) (resetGlobals : Bool)
deriving DecidableEq, Repr

/-- `handleExecute` (src/server.ts lines 204-241):

* lines 214-219: `!body.code || typeof body.code !== "string"` rejects a missing or
  empty `code` with a 400 error (`""` is falsy in JavaScript);
* lines 221-223: `const resetGlobals = config.workerCount > 1 ? true :
  body.reset_globals ?? defaultResetGlobals` — the hard always-reset policy for
  pools of more than one worker, nullish-coalescing to the configured default
  otherwise (`?? ` keeps an explicit `false`);
* lines 226-228: dispatch to the worker pool if one exists, else to the manager.

`workerCount` is the configured unit count; `poolCreated` records whether
`startServer` created a `WorkerPool` (it does exactly when `workerCount > 0`). -/
def handleExecute (body : ExecuteRequest) (defaultResetGlobals : Bool)
    (workerCount : Nat) (poolCreated : Bool) : HandlerAction :=
  match jsTruthyStr body.code with
  | none => HandlerAction.badRequest "Missing or invalid \x22code\x22 field"
  | some code =>
      let resetGlobals :=
        if workerCount > 1 then true else body.reset_globals.getD defaultResetGlobals
      HandlerAction.dispatch
        (if poolCreated then DispatchTarget.pool else DispatchTarget.manager)
        code resetGlobals

/-!
Dispatcher traces.  A `TraceState` carries the pool state together with two ghost
components: `allocated`, the list of request ids handed out by `execute` (line 129)
in order, and `log`, the concatenation of all effects performed so far.  The step
relation interleaves the dispatcher's entry points: an `execute` call, an inbound
worker message, a timeout callback firing (only while its request is still pending
— every removal path clears the timer first, so a cleared timer never fires),
`terminate`, and arbitrary changes to the worker list (worker spawning, readiness
flips, crashes), which commute with everything the invariants speak about.
-/

/-- Pool state plus ghost history. -/
structure TraceState where
  pool : PoolState
  allocated : List String
  log : List PoolEffect
deriving DecidableEq, Repr

/-- One dispatcher step. -/
inductive PoolStep : TraceState → TraceState → Prop where
  | exec (t : TraceState) (code : String) (resetGlobals : Bool)
      (randomIndex timerHandle : Nat) (configTimeout : Option Nat) :
      PoolStep t
        { pool := (WorkerPool.execute t.pool code resetGlobals randomIndex
            timerHandle configTimeout).1,
          allocated := t.allocated ++ [reqId t.pool.nextRequestId],
          log := t.log ++ (WorkerPool.execute t.pool code resetGlobals randomIndex
            timerHandle configTimeout).2 }
  | message (t : TraceState) (msg : WorkerMessage) :
      PoolStep t
        { pool := (WorkerPool.handleWorkerMessage t.pool msg).1,
          allocated := t.allocated,
          log := t.log ++ (WorkerPool.handleWorkerMessage t.pool msg).2 }
  | timeoutFire (t : TraceState) (id : String) (p : PendingRequest) :
      mapGet t.pool.pendingRequests id = some p →
      PoolStep t
        { pool := (WorkerPool.onTimeout t.pool id).1,
          allocated := t.allocated,
          log := t.log ++ (WorkerPool.onTimeout t.pool id).2 }
  | terminate (t : TraceState) :
      PoolStep t
        { pool := (WorkerPool.terminate t.pool).1,
          allocated := t.allocated,
          log := t.log ++ (WorkerPool.terminate t.pool).2 }
  | workers (t : TraceState) (ws : List WorkerState) :
      PoolStep t
        { pool := { t.pool with workers := ws },
          allocated := t.allocated,
          log := t.log }

/-- Initial trace of a freshly constructed dispatcher (src/unnamed/part_000 lines
29-33: empty pending map, counters at zero), with any initial worker list. -/
def TraceState.init (ws : List WorkerState) : TraceState :=
  { pool := { workers := ws, pendingRequests := [], nextRequestId := 0, executionCount := 0 },
    allocated := [],
    log := [] }

/-- Traces reachable over the lifetime of one dispatcher instance. -/
def PoolReachable (ws : List WorkerState) (t : TraceState) : Prop :=
  Relation.ReflTransGen PoolStep (TraceState.init ws) t

/-- Effects that conclude the pending request with the given id: a matching
response from the unit (`resolveRequest`, `rejectError`), the timeout firing
(`rejectTimeout`), or pool termination (`rejectTerminated`). -/
def concludes (e : PoolEffect) (id : String) : Bool :=
  match e with
  | PoolEffect.resolveRequest i _ => i = id
  | PoolEffect.rejectError i _ => i = id
  | PoolEffect.rejectTimeout i => i = id
  | PoolEffect.rejectTerminated i => i = id
  | _ => false

/-- Number of conclusion events for `id` in an effect log. -/
def countConcl (id : String) (log : List PoolEffect) : Nat :=
  log.countP (fun e => concludes e id)

/-! Association-list lemmas for the pending-request map. -/

theorem mapGet_eq_none_iff (m : List (String × PendingRequest)) (k : String) :
    mapGet m k = none ↔ k ∉ m.map Prod.fst := by
  induction m with
  | nil => simp [mapGet]
  | cons hd tl ih =>
    obtain ⟨k', v⟩ := hd
    rw [mapGet]
    by_cases h : k' = k
    · subst h
      simp
    · rw [if_neg h, ih]
      simp only [List.map_cons, List.mem_cons]
      constructor
      · intro hn hmem
        rcases hmem with he | hmem
        · exact h he.symm
        · exact hn hmem
      · intro hn hmem
        exact hn (Or.inr hmem)

theorem mapGet_some_mem {m : List (String × PendingRequest)} {k : String}
    {v : PendingRequest} (h : mapGet m k = some v) : (k, v) ∈ m := by
  induction m with
  | nil => simp [mapGet] at h
  | cons hd tl ih =>
    obtain ⟨k', v'⟩ := hd
    rw [mapGet] at h
    by_cases he : k' = k
    · rw [if_pos he] at h
      obtain rfl : v' = v := by injection h
      subst he
      exact List.mem_cons_self _ _
    · rw [if_neg he] at h
      exact List.mem_cons_of_mem _ (ih h)

theorem mapGet_some_mem_keys {m : List (String × PendingRequest)} {k : String}
    {v : PendingRequest} (h : mapGet m k = some v) : k ∈ m.map Prod.fst :=
  List.mem_map_of_mem Prod.fst (mapGet_some_mem h)

theorem mapSet_of_not_mem (m : List (String × PendingRequest)) (k : String)
    (v : PendingRequest) (h : k ∉ m.map Prod.fst) : mapSet m k v = m ++ [(k, v)] := by
  induction m with
  | nil => rfl
  | cons hd tl ih =>
    obtain ⟨k', v'⟩ := hd
    simp only [List.map_cons, List.mem_cons, not_or] at h
    rw [mapSet, if_neg (fun he => h.1 he.symm), ih h.2]
    rfl

theorem mapDelete_sublist (m : List (String × PendingRequest)) (k : String) :
    (mapDelete m k).Sublist m := by
  induction m with
  | nil => simp [mapDelete]
  | cons hd tl ih =>
    obtain ⟨k', v'⟩ := hd
    rw [mapDelete]
    by_cases he : k' = k
    · rw [if_pos he]
      exact List.sublist_cons_self _ _
    · rw [if_neg he]
      exact ih.cons₂ _

theorem mem_keys_mapDelete_ne {m : List (String × PendingRequest)} {k id : String}
    (hnd : (m.map Prod.fst).Nodup) (h : id ∈ (mapDelete m k).map Prod.fst) :
    id ∈ m.map Prod.fst ∧ id ≠ k := by
  induction m with
  | nil => simp [mapDelete] at h
  | cons hd tl ih =>
    obtain ⟨k', v'⟩ := hd
    simp only [List.map_cons, List.nodup_cons] at hnd
    rw [mapDelete] at h
    by_cases he : k' = k
    · rw [if_pos he] at h
      subst he
      refine ⟨List.mem_cons_of_mem _ h, ?_⟩
      intro hik
      subst hik
      exact hnd.1 h
    · rw [if_neg he] at h
      simp only [List.map_cons, List.mem_cons] at h
      rcases h with h | h
      · subst h
        exact ⟨List.mem_cons_self _ _, fun hik => he hik⟩
      · obtain ⟨hmem, hne⟩ := ih hnd.2 h
        exact ⟨List.mem_cons_of_mem _ hmem, hne⟩

/-! Counting lemmas for conclusion events. -/

theorem countConcl_append (id : String) (l₁ l₂ : List PoolEffect) :
    countConcl id (l₁ ++ l₂) = countConcl id l₁ + countConcl id l₂ :=
  List.countP_append _ _ _

theorem countConcl_terminate (pending : List (String × PendingRequest)) (id : String) :
    countConcl id (pending.flatMap
        (fun p => [PoolEffect.clearTimer p.2.timeout, PoolEffect.rejectTerminated p.1])) =
      pending.countP (fun p => decide (p.1 = id)) := by
  induction pending with
  | nil => rfl
  | cons hd tl ih =>
    rw [List.flatMap_cons, countConcl_append, ih, List.countP_cons]
    have : countConcl id [PoolEffect.clearTimer hd.2.timeout,
        PoolEffect.rejectTerminated hd.1] = if decide (hd.1 = id) then 1 else 0 := by
      by_cases h : hd.1 = id
      · simp [countConcl, List.countP_cons, concludes, h]
      · simp [countConcl, List.countP_cons, concludes, h]
    rw [this]
    by_cases h : hd.1 = id
    · simp [h]
      omega
    · simp [h]

theorem countP_key_le_one (m : List (String × PendingRequest)) (id : String)
    (hnd : (m.map Prod.fst).Nodup) : m.countP (fun p => decide (p.1 = id)) ≤ 1 := by
  induction m with
  | nil => simp
  | cons hd tl ih =>
    simp only [List.map_cons, List.nodup_cons] at hnd
    rw [List.countP_cons]
    by_cases he : hd.1 = id
    · have hz : tl.countP (fun p => decide (p.1 = id)) = 0 := by
        rw [List.countP_eq_zero]
        intro p hp hdec
        apply hnd.1
        rw [he, ← of_decide_eq_true hdec]
        exact List.mem_map_of_mem Prod.fst hp
      simp [hz, he]
    · have := ih hnd.2
      simp [he]
      omega

theorem countP_key_eq_zero_of_not_mem (m : List (String × PendingRequest)) (id : String)
    (h : id ∉ m.map Prod.fst) : m.countP (fun p => decide (p.1 = id)) = 0 := by
  rw [List.countP_eq_zero]
  intro p hp hdec
  apply h
  rw [← of_decide_eq_true hdec]
  exact List.mem_map_of_mem Prod.fst hp

/-- Inductive invariant of dispatcher traces:

1. the allocated ids are exactly `req-0 … req-(nextRequestId-1)`, in order;
2. the pending map's keys are pairwise distinct;
3. every pending key was allocated;
4. a request still pending has never been concluded;
5. no request is concluded more than once;
6. only allocated ids are ever concluded. -/
def PoolInv (t : TraceState) : Prop :=
  t.allocated = (List.range t.pool.nextRequestId).map reqId ∧
  (t.pool.pendingRequests.map Prod.fst).Nodup ∧
  (∀ p ∈ t.pool.pendingRequests, p.1 ∈ t.allocated) ∧
  (∀ id, id ∈ t.pool.pendingRequests.map Prod.fst → countConcl id t.log = 0) ∧
  (∀ id, countConcl id t.log ≤ 1) ∧
  (∀ id, 1 ≤ countConcl id t.log → id ∈ t.allocated)

theorem poolInv_init (ws : List WorkerState) : PoolInv (TraceState.init ws) := by
  refine ⟨rfl, List.nodup_nil, ?_, ?_, ?_, ?_⟩ <;> simp [TraceState.init, countConcl]

theorem reqId_not_mem_image_range (n : Nat) :
    reqId n ∉ (List.range n).map reqId := by
  intro h
  obtain ⟨m, hm, he⟩ := List.mem_map.mp h
  have := reqId_injective he
  rw [List.mem_range] at hm
  omega

/-- Concluding a pending request preserves the invariant: `effs` concludes exactly
the request `i` (once) and no other, and `i` is removed from the pending map.
Instantiated by the matching-response, worker-error and timeout-fired steps. -/
theorem poolInv_conclude (t : TraceState) (hinv : PoolInv t) (i : String)
    (p : PendingRequest) (hget : mapGet t.pool.pendingRequests i = some p)
    (effs : List PoolEffect)
    (heffs : ∀ id, countConcl id effs = if i = id then 1 else 0) :
    PoolInv { pool := { t.pool with pendingRequests := mapDelete t.pool.pendingRequests i },
              allocated := t.allocated, log := t.log ++ effs } := by
  obtain ⟨h1, h2, h3, h4, h5, h6⟩ := hinv
  refine ⟨h1, ?_, ?_, ?_, ?_, ?_⟩
  · exact ((mapDelete_sublist _ _).map Prod.fst).nodup h2
  · intro q hq
    exact h3 q ((mapDelete_sublist _ _).subset hq)
  · intro id hid
    obtain ⟨hmem, hne⟩ := mem_keys_mapDelete_ne h2 hid
    rw [countConcl_append, h4 id hmem, heffs id, if_neg (fun he => hne he.symm)]
  · intro id
    rw [countConcl_append, heffs id]
    by_cases he : i = id
    · subst he
      rw [h4 i (mapGet_some_mem_keys hget)]
      simp
    · rw [if_neg he]
      have := h5 id
      omega
  · intro id hid
    rw [countConcl_append, heffs id] at hid
    by_cases he : i = id
    · subst he
      exact h3 _ (mapGet_some_mem hget)
    · rw [if_neg he] at hid
      apply h6 id
      omega

/-- Evaluation of `WorkerPool.execute` when no worker is ready: reject, having
already advanced the id counter. -/
theorem execute_no_worker (s : PoolState) (code : String) (rg : Bool)
    (rand th : Nat) (cfg : Option Nat)
    (h : selectWorkerRandom s.workers rand = none) :
    WorkerPool.execute s code rg rand th cfg =
      ({ s with nextRequestId := s.nextRequestId + 1 },
       [PoolEffect.rejectNoWorkers (reqId s.nextRequestId)]) := by
  simp only [WorkerPool.execute]
  rw [h]

/-- Evaluation of `WorkerPool.execute` when a worker is selected: register the
pending request, start the timer, post the message, bump the counter. -/
theorem execute_some_worker (s : PoolState) (code : String) (rg : Bool)
    (rand th : Nat) (cfg : Option Nat) (w : Nat)
    (h : selectWorkerRandom s.workers rand = some w) :
    WorkerPool.execute s code rg rand th cfg =
      ({ workers := s.workers,
         pendingRequests := mapSet s.pendingRequests (reqId s.nextRequestId)
           { timeout := th },
         nextRequestId := s.nextRequestId + 1,
         executionCount := s.executionCount + 1 },
       [PoolEffect.setTimer th (reqId s.nextRequestId) (jsOrNat cfg 30000),
        PoolEffect.postExecute w (reqId s.nextRequestId) code rg]) := by
  simp only [WorkerPool.execute]
  rw [h]

/-- Case analysis of `WorkerPool.handleWorkerMessage`: either the message matches a
pending request (a `result` or `error` with a truthy matching id) and is concluded,
or the pool is left untouched with no effects. -/
theorem handleWorkerMessage_spec (s : PoolState) (msg : WorkerMessage) :
    (∃ i p e, jsTruthyStr msg.id = some i ∧ mapGet s.pendingRequests i = some p ∧
      WorkerPool.handleWorkerMessage s msg =
        ({ s with pendingRequests := mapDelete s.pendingRequests i },
         [PoolEffect.clearTimer p.timeout, e]) ∧
      (∀ id, concludes e id = decide (i = id))) ∨
    WorkerPool.handleWorkerMessage s msg = (s, []) := by
  unfold WorkerPool.handleWorkerMessage
  split
  · rename_i i htype hid
    split
    · rename_i p hget
      left
      exact ⟨i, p, PoolEffect.resolveRequest i msg.result, hid, hget, rfl, fun id => rfl⟩
    · right; rfl
  · rename_i i htype hid
    split
    · rename_i p hget
      left
      exact ⟨i, p, PoolEffect.rejectError i (jsOr msg.error "Worker execution failed"),
        hid, hget, rfl, fun id => rfl⟩
    · right; rfl
  · right; rfl

theorem poolInv_step {t t' : TraceState} (hst : PoolStep t t') (hinv : PoolInv t) :
    PoolInv t' := by
  obtain ⟨h1, h2, h3, h4, h5, h6⟩ := hinv
  cases hst with
  | exec code rg rand th cfg =>
    cases hsel : selectWorkerRandom t.pool.workers rand with
    | none =>
      rw [execute_no_worker t.pool code rg rand th cfg hsel]
      unfold PoolInv
      dsimp only
      refine ⟨?_, h2, ?_, ?_, ?_, ?_⟩
      · rw [h1, List.range_succ, List.map_append]
        rfl
      · intro q hq
        exact List.mem_append_left _ (h3 q hq)
      · intro id hid
        rw [countConcl_append, h4 id hid]
        simp [countConcl, List.countP_cons, concludes]
      · intro id
        rw [countConcl_append]
        have h5' := h5 id
        have : countConcl id [PoolEffect.rejectNoWorkers (reqId t.pool.nextRequestId)] = 0 := by
          simp [countConcl, List.countP_cons, concludes]
        omega
      · intro id hid
        rw [countConcl_append] at hid
        have : countConcl id [PoolEffect.rejectNoWorkers (reqId t.pool.nextRequestId)] = 0 := by
          simp [countConcl, List.countP_cons, concludes]
        exact List.mem_append_left _ (h6 id (by omega))
    | some w =>
      rw [execute_some_worker t.pool code rg rand th cfg w hsel]
      have hfresh : reqId t.pool.nextRequestId ∉ t.pool.pendingRequests.map Prod.fst := by
        intro hmem
        obtain ⟨q, hq, hfst⟩ := List.mem_map.mp hmem
        have := h3 q hq
        rw [hfst, h1] at this
        exact reqId_not_mem_image_range _ this
      rw [mapSet_of_not_mem _ _ _ hfresh]
      have heff0 : ∀ id, countConcl id
          [PoolEffect.setTimer th (reqId t.pool.nextRequestId) (jsOrNat cfg 30000),
           PoolEffect.postExecute w (reqId t.pool.nextRequestId) code rg] = 0 := by
        intro id
        simp [countConcl, List.countP_cons, concludes]
      unfold PoolInv
      dsimp only
      refine ⟨?_, ?_, ?_, ?_, ?_, ?_⟩
      · rw [h1, List.range_succ, List.map_append]
        rfl
      · rw [List.map_append]
        refine h2.append (by simp) ?_
        intro a ha hb
        simp at hb
        subst hb
        exact hfresh ha
      · intro q hq
        rcases List.mem_append.mp hq with hq | hq
        · exact List.mem_append_left _ (h3 q hq)
        · simp only [List.mem_singleton] at hq
          subst hq
          exact List.mem_append_right _ (by simp)
      · intro id hid
        rw [countConcl_append, heff0 id]
        rw [List.map_append, List.mem_append] at hid
        rcases hid with hid | hid
        · rw [h4 id hid]
        · simp only [List.map_cons, List.map_nil, List.mem_singleton] at hid
          subst hid
          by_contra hne
          have hge : 1 ≤ countConcl (reqId t.pool.nextRequestId) t.log := by omega
          have := h6 _ hge
          rw [h1] at this
          exact reqId_not_mem_image_range _ this
      · intro id
        rw [countConcl_append, heff0 id]
        have := h5 id
        omega
      · intro id hid
        rw [countConcl_append, heff0 id] at hid
        exact List.mem_append_left _ (h6 id (by omega))
  | message msg =>
    rcases handleWorkerMessage_spec t.pool msg with
      ⟨i, p, e, hid, hget, heq, hconcl⟩ | heq
    · rw [heq]
      refine poolInv_conclude t ⟨h1, h2, h3, h4, h5, h6⟩ i p hget _ ?_
      intro id
      have hclear : ∀ idx, concludes (PoolEffect.clearTimer p.timeout) idx = false :=
        fun _ => rfl
      simp only [countConcl, List.countP_cons, List.countP_nil, hconcl, hclear]
      by_cases he : i = id <;> simp [he]
    · rw [heq]
      have hlog : t.log ++ [] = t.log := List.append_nil _
      rw [hlog]
      exact ⟨h1, h2, h3, h4, h5, h6⟩
  | timeoutFire id p hget =>
    have heq : WorkerPool.onTimeout t.pool id =
        ({ t.pool with pendingRequests := mapDelete t.pool.pendingRequests id },
         [PoolEffect.rejectTimeout id]) := rfl
    rw [heq]
    refine poolInv_conclude t ⟨h1, h2, h3, h4, h5, h6⟩ id p hget _ ?_
    intro id'
    by_cases he : id = id' <;> simp [countConcl, List.countP_cons, concludes, he]
  | terminate =>
    refine ⟨h1, by simp [WorkerPool.terminate], by simp [WorkerPool.terminate],
      by simp [WorkerPool.terminate], ?_, ?_⟩
    · intro id
      show countConcl id (t.log ++ (WorkerPool.terminate t.pool).2) ≤ 1
      rw [countConcl_append]
      have hterm : countConcl id (WorkerPool.terminate t.pool).2 =
          t.pool.pendingRequests.countP (fun p => decide (p.1 = id)) := by
        show countConcl id (t.pool.workers.map (fun w => PoolEffect.terminateWorker w.workerId) ++
          t.pool.pendingRequests.flatMap
            (fun p => [PoolEffect.clearTimer p.2.timeout, PoolEffect.rejectTerminated p.1])) = _
        rw [countConcl_append, countConcl_terminate]
        have : countConcl id (t.pool.workers.map
            (fun w => PoolEffect.terminateWorker w.workerId)) = 0 := by
          rw [countConcl, List.countP_eq_zero]
          intro e he
          obtain ⟨w, _, hw⟩ := List.mem_map.mp he
          subst hw
          simp [concludes]
        omega
      rw [hterm]
      by_cases hmem : id ∈ t.pool.pendingRequests.map Prod.fst
      · rw [h4 id hmem]
        have := countP_key_le_one t.pool.pendingRequests id h2
        omega
      · rw [countP_key_eq_zero_of_not_mem _ _ hmem]
        have := h5 id
        omega
    · intro id hid
      show id ∈ t.allocated
      rw [countConcl_append] at hid
      by_cases hc : 1 ≤ countConcl id t.log
      · exact h6 id hc
      · have hpos : 0 < countConcl id (WorkerPool.terminate t.pool).2 := by omega
        have hterm : countConcl id (WorkerPool.terminate t.pool).2 =
            t.pool.pendingRequests.countP (fun p => decide (p.1 = id)) := by
          show countConcl id (t.pool.workers.map (fun w => PoolEffect.terminateWorker w.workerId) ++
            t.pool.pendingRequests.flatMap
              (fun p => [PoolEffect.clearTimer p.2.timeout, PoolEffect.rejectTerminated p.1])) = _
          rw [countConcl_append, countConcl_terminate]
          have : countConcl id (t.pool.workers.map
              (fun w => PoolEffect.terminateWorker w.workerId)) = 0 := by
            rw [countConcl, List.countP_eq_zero]
            intro e he
            obtain ⟨w, _, hw⟩ := List.mem_map.mp he
            subst hw
            simp [concludes]
          omega
        rw [hterm] at hpos
        rw [List.countP_pos_iff] at hpos
        obtain ⟨q, hq, hdec⟩ := hpos
        have := h3 q hq
        rw [of_decide_eq_true hdec] at this
        exact this
  | workers ws =>
    exact ⟨h1, h2, h3, h4, h5, h6⟩

theorem poolInv_reachable {ws : List WorkerState} {t : TraceState}
    (h : PoolReachable ws t) : PoolInv t := by
  induction h with
  | refl => exact poolInv_init ws
  | tail _ hstep ih => exact poolInv_step hstep ih

/-! Helper lemmas for the selection policy. -/

theorem mem_enum_snd {α : Type} {l : List α} {q : Nat × α} (h : q ∈ l.enum) :
    q.2 ∈ l := by
  obtain ⟨a, b⟩ := q
  rw [List.enum_eq_zip_range] at h
  exact (List.of_mem_zip h).2

theorem enum_get?_of_mem {α : Type} {l : List α} {q : Nat × α} (h : q ∈ l.enum) :
    l.get? q.1 = some q.2 := by
  obtain ⟨k, hk⟩ := List.mem_iff_get?.mp h
  rw [List.get?_enum] at hk
  obtain ⟨a, ha, hpair⟩ := Option.map_eq_some'.mp hk
  obtain ⟨b, c⟩ := q
  obtain ⟨rfl, rfl⟩ : k = b ∧ a = c := by
    injection hpair with h1 h2
    exact ⟨h1, h2⟩
  exact ha

theorem map_get?_range {α : Type} (l : List α) :
    (List.range l.length).map (fun d => l.get? d) = l.map some := by
  induction l with
  | nil => rfl
  | cons a t ih =>
    rw [List.length_cons, List.range_succ_eq_map, List.map_cons, List.map_map]
    rw [show ((fun d => (a :: t).get? d) ∘ Nat.succ) = (fun d => t.get? d) from rfl]
    rw [ih, List.map_cons]
    rfl

/-! Claim theorems. -/

/-- C1: for every set of concurrent calls to the Execution Serializer's `execute`
on one `PyodideManager` instance, no two runtime invocations on the same runtime
handle overlap in time — in every reachable interleaving of the busy-flag
protocol, no two distinct callers are simultaneously busy (running the runtime
invocation or its cleanup phase: result conversion, RawValue and Namespace
release, busy-flag clear). -/
theorem c1_serializer_mutual_exclusion (s : LockState) (i j : Nat)
    (hreach : LockReachable s) (hij : i ≠ j) : ¬ (s.busy i ∧ s.busy j) := by
  intro hb
  exact hij ((lockInv_reachable hreach).2 i j hb.1 hb.2)

/-- State after caller 0 has acquired the busy flag and begun its execution. -/
def lockStateAfterAcquire : LockState :=
  { executionLock := true,
    phase := Function.update LockState.init.phase 0 ExecPhase.running }

theorem c1_serializer_mutual_exclusion_witness :
    LockReachable lockStateAfterAcquire ∧
    ¬ (lockStateAfterAcquire.busy 0 ∧ lockStateAfterAcquire.busy 1) := by
  have hreach : LockReachable lockStateAfterAcquire :=
    Relation.ReflTransGen.single (LockStep.acquire LockState.init 0 rfl rfl)
  exact ⟨hreach, c1_serializer_mutual_exclusion lockStateAfterAcquire 0 1 hreach
    (by decide)⟩

/-- C2: whenever the runtime's execute-and-await operation fails with a code-level
error, `execute` returns an `ExecutionResult` envelope with status `exception`
whose result text is the runtime's last-error representation; and `execute`
rejects (a hard failure) only when the runtime handle is absent, with the message
"Pyodide not initialized". -/
theorem c2_code_error_becomes_exception :
    (∀ (s : ManagerState) (py : PyRuntime) (code : String) (rg : Bool) (ms : Nat),
      s.pyodide = some py →
      (if rg then py.runAsyncFresh code else py.runAsyncGlobal code) = RunOutcome.err →
      PyodideManager.execute s code rg ms =
        (ExecOutcome.ret { status := Status.exception, result := some py.lastExcRepr,
                           execution_time_ms := ms },
         { s with executionCount := s.executionCount + 1 })) ∧
    (∀ (s : ManagerState) (code : String) (rg : Bool) (ms : Nat) (m : String),
      (PyodideManager.execute s code rg ms).1 = ExecOutcome.thrown m →
      s.pyodide = none ∧ m = "Pyodide not initialized") := by
  constructor
  · intro s py code rg ms hpy hrun
    obtain ⟨pyo, cnt⟩ := s
    obtain rfl : pyo = some py := hpy
    simp only [PyodideManager.execute]
    rw [hrun]
  · intro s code rg ms m h
    obtain ⟨pyo, cnt⟩ := s
    cases pyo with
    | none =>
      refine ⟨rfl, ?_⟩
      have h' : ExecOutcome.thrown "Pyodide not initialized" = ExecOutcome.thrown m := h
      injection h' with h''
      exact h''.symm
    | some py =>
      exfalso
      simp only [PyodideManager.execute] at h
      cases hrun : (if rg then py.runAsyncFresh code else py.runAsyncGlobal code) with
      | ok v =>
        rw [hrun] at h
        simp at h
      | err =>
        rw [hrun] at h
        simp at h

/-- Runtime on which every execution fails with a code-level error whose recorded
last-error representation is a `ValueError`. -/
def pyFailing : PyRuntime where
  runAsyncGlobal := fun _ => RunOutcome.err
  runAsyncFresh := fun _ => RunOutcome.err
  lastExcRepr := "ValueError(test error)"

theorem c2_code_error_becomes_exception_witness :
    PyodideManager.execute { pyodide := some pyFailing, executionCount := 0 }
      "raise ValueError" false 5 =
      (ExecOutcome.ret { status := Status.exception,
                         result := some "ValueError(test error)",
                         execution_time_ms := 5 },
       { pyodide := some pyFailing, executionCount := 1 }) :=
  c2_code_error_becomes_exception.1
    { pyodide := some pyFailing, executionCount := 0 } pyFailing
    "raise ValueError" false 5 rfl rfl

/-- C4 counterexample: on the absent-runtime-handle path, `execute` throws without
incrementing the execution counter — the increment sits inside the inner `finally`
(src/pyodide-manager.ts line 177), which the early throw at lines 157-159 never
reaches, so the claim "the counter is incremented exactly once on every path,
including an absent runtime handle" fails at this concrete input. -/
theorem c4_counter_counterexample :
    (PyodideManager.execute uninitializedManager "x" false 0).1 =
      ExecOutcome.thrown "Pyodide not initialized" ∧
    (PyodideManager.execute uninitializedManager "x" false 0).2.executionCount = 0 ∧
    ¬ ((PyodideManager.execute uninitializedManager "x" false 0).2.executionCount =
        uninitializedManager.executionCount + 1) := by
  refine ⟨rfl, rfl, ?_⟩
  decide

/-- C4 amended: on every invocation whose runtime handle is present, the execution
counter is incremented exactly once before `execute` returns — on success and on
code-level exception alike; when the runtime handle is absent, `execute` throws
without incrementing the counter. -/
theorem c4_counter_incremented_amended :
    (∀ (s : ManagerState) (py : PyRuntime) (code : String) (rg : Bool) (ms : Nat),
      s.pyodide = some py →
      (PyodideManager.execute s code rg ms).2.executionCount = s.executionCount + 1) ∧
    (∀ (s : ManagerState) (code : String) (rg : Bool) (ms : Nat),
      s.pyodide = none →
      (PyodideManager.execute s code rg ms).2.executionCount = s.executionCount) := by
  constructor
  · intro s py code rg ms hpy
    obtain ⟨pyo, cnt⟩ := s
    obtain rfl : pyo = some py := hpy
    simp only [PyodideManager.execute]
    cases hrun : (if rg then py.runAsyncFresh code else py.runAsyncGlobal code) with
    | ok v => rfl
    | err => rfl
  · intro s code rg ms hpy
    obtain ⟨pyo, cnt⟩ := s
    obtain rfl : pyo = none := hpy
    rfl

theorem c4_counter_incremented_amended_witness :
    (PyodideManager.execute managerAfterAssign42 "x" false 3).2.executionCount = 2 ∧
    (PyodideManager.execute uninitializedManager "x" false 0).2.executionCount = 0 :=
  ⟨c4_counter_incremented_amended.1 managerAfterAssign42 pyAfterAssign42 "x" false 3 rfl,
   c4_counter_incremented_amended.2 uninitializedManager "x" false 0 rfl⟩

/-- C9: against the runtime state left by a prior request that set `x = 42` with
reset disabled, submitting `"x"` with reset disabled yields
`{status: success, result: "42"}`, and submitting `"x"` with `resetNamespace`
yields status `success` with a result string containing "NameError". -/
theorem c9_reset_namespace_scenario :
    PyodideManager.execute managerAfterAssign42 "x" false 3 =
      (ExecOutcome.ret { status := Status.success, result := some "42",
                         execution_time_ms := 3 },
       { pyodide := some pyAfterAssign42, executionCount := 2 }) ∧
    (∃ pre post,
      PyodideManager.execute managerAfterAssign42 "x" true 3 =
        (ExecOutcome.ret { status := Status.success,
                           result := some (pre ++ "NameError" ++ post),
                           execution_time_ms := 3 },
         { pyodide := some pyAfterAssign42, executionCount := 2 })) := by
  refine ⟨rfl, "", "(name x is not defined)", ?_⟩
  rfl

/-! Concrete fixtures used by witnesses. -/

/-- A pool with no workers at all. -/
def emptyPool : PoolState :=
  { workers := [], pendingRequests := [], nextRequestId := 0, executionCount := 0 }

/-- A pool whose single worker has not reported ready. -/
def poolUnready : PoolState :=
  { workers := [{ ready := false, workerId := 0 }], pendingRequests := [],
    nextRequestId := 0, executionCount := 0 }

/-- A ready worker with id 0. -/
def readyWorker : WorkerState := { ready := true, workerId := 0 }

/-- Fresh dispatcher over one ready worker. -/
def trace0 : TraceState := TraceState.init [readyWorker]

/-- Trace after one dispatched `execute` call. -/
def trace1 : TraceState :=
  { pool := (WorkerPool.execute trace0.pool "a" false 0 0 none).1,
    allocated := trace0.allocated ++ [reqId trace0.pool.nextRequestId],
    log := trace0.log ++ (WorkerPool.execute trace0.pool "a" false 0 0 none).2 }

/-- Trace after a second dispatched `execute` call. -/
def trace2 : TraceState :=
  { pool := (WorkerPool.execute trace1.pool "b" true 0 1 none).1,
    allocated := trace1.allocated ++ [reqId trace1.pool.nextRequestId],
    log := trace1.log ++ (WorkerPool.execute trace1.pool "b" true 0 1 none).2 }

/-- A pool with one ready worker and one outstanding pending request. -/
def poolWithPending : PoolState :=
  { workers := [readyWorker],
    pendingRequests := [("req-0", { timeout := 7 })],
    nextRequestId := 1, executionCount := 1 }

/-- C5: if no unit is ready, `execute` rejects immediately with the
"No workers available" error, performing no other effect; if at least one unit is
ready, the draw-to-unit selection maps the uniform draw range exactly onto the
ready units (each ready unit hit by exactly one draw value, in order), and any
selected index points at a ready unit — so selection is uniform over the ready
units only. -/
theorem c5_random_routing :
    (∀ (s : PoolState) (code : String) (rg : Bool) (rand th : Nat) (cfg : Option Nat),
      (∀ w ∈ s.workers, w.ready = false) →
      WorkerPool.execute s code rg rand th cfg =
        ({ s with nextRequestId := s.nextRequestId + 1 },
         [PoolEffect.rejectNoWorkers (reqId s.nextRequestId)])) ∧
    (∀ ws : List WorkerState,
      (List.range (readyWorkers ws).length).map (fun d => selectWorkerRandom ws d) =
        (readyWorkers ws).map (fun q => some q.1)) ∧
    (∀ (ws : List WorkerState) (d idx : Nat),
      selectWorkerRandom ws d = some idx →
      (ws.get? idx).map (fun w => w.ready) = some true) := by
  refine ⟨?_, ?_, ?_⟩
  · intro s code rg rand th cfg hnr
    have hempty : readyWorkers s.workers = [] := by
      rw [readyWorkers, List.filter_eq_nil_iff]
      intro q hq
      rw [hnr q.2 (mem_enum_snd hq)]
      simp
    have hsel : selectWorkerRandom s.workers rand = none := by
      simp [selectWorkerRandom, hempty]
    exact execute_no_worker s code rg rand th cfg hsel
  · intro ws
    by_cases h : (readyWorkers ws).length = 0
    · rw [List.length_eq_zero.mp h]
      rfl
    · have hsel : ∀ d, selectWorkerRandom ws d = ((readyWorkers ws).get? d).map Prod.fst := by
        intro d
        simp [selectWorkerRandom, h]
      calc (List.range (readyWorkers ws).length).map (fun d => selectWorkerRandom ws d)
          = (List.range (readyWorkers ws).length).map
              (fun d => ((readyWorkers ws).get? d).map Prod.fst) := by
            simp only [hsel]
        _ = ((List.range (readyWorkers ws).length).map
              (fun d => (readyWorkers ws).get? d)).map (Option.map Prod.fst) := by
            rw [List.map_map]
            rfl
        _ = ((readyWorkers ws).map some).map (Option.map Prod.fst) := by
            rw [map_get?_range]
        _ = (readyWorkers ws).map (fun q => some q.1) := by
            rw [List.map_map]
            rfl
  · intro ws d idx hsel
    simp only [selectWorkerRandom] at hsel
    by_cases h : (readyWorkers ws).length = 0
    · rw [if_pos h] at hsel
      exact Option.noConfusion hsel
    · rw [if_neg h] at hsel
      obtain ⟨q, hq, hfst⟩ := Option.map_eq_some'.mp hsel
      have hmem : q ∈ readyWorkers ws := List.get?_mem hq
      have hready : q.2.ready = true := by
        have := (List.mem_filter.mp hmem).2
        simpa using this
      have henum : q ∈ ws.enum := (List.mem_filter.mp hmem).1
      have hpos := enum_get?_of_mem henum
      rw [← hfst, hpos, Option.map_some', hready]

theorem c5_random_routing_witness :
    WorkerPool.execute poolUnready "x" false 0 0 none =
      ({ poolUnready with nextRequestId := 1 },
       [PoolEffect.rejectNoWorkers (reqId 0)]) ∧
    (([{ ready := false, workerId := 0 }, { ready := true, workerId := 1 }]
        : List WorkerState).get? 1).map (fun w => w.ready) = some true := by
  constructor
  · exact c5_random_routing.1 poolUnready "x" false 0 0 none (by decide)
  · exact c5_random_routing.2.2
      [{ ready := false, workerId := 0 }, { ready := true, workerId := 1 }] 0 1
      (by decide)

/-- C10 counterexample: the dispatcher's state is not literally unchanged by a
failed dispatch — `execute` advances the request-id counter (line 129) before
checking worker availability, so after a "no workers available" rejection
`nextRequestId` has moved from 0 to 1 even though nothing else happened. -/
theorem c10_counterexample :
    (WorkerPool.execute emptyPool "x" false 0 0 none).2 =
      [PoolEffect.rejectNoWorkers "req-0"] ∧
    (WorkerPool.execute emptyPool "x" false 0 0 none).1 ≠ emptyPool ∧
    (WorkerPool.execute emptyPool "x" false 0 0 none).1.nextRequestId = 1 := by
  refine ⟨by decide, by decide, by decide⟩

/-- C10 amended: when `execute` fails because no unit is ready, no PendingRequest
entry is registered, no timeout timer is created, no message is sent to any unit,
and the execution counter is not incremented (the caller is rejected immediately);
however the request-id allocator has already been advanced by one, so the
dispatcher state is not literally unchanged. -/
theorem c10_no_worker_effects_amended :
    ∀ (s : PoolState) (code : String) (rg : Bool) (rand th : Nat) (cfg : Option Nat),
      (∀ w ∈ s.workers, w.ready = false) →
      (WorkerPool.execute s code rg rand th cfg).1.pendingRequests = s.pendingRequests ∧
      (WorkerPool.execute s code rg rand th cfg).1.executionCount = s.executionCount ∧
      (WorkerPool.execute s code rg rand th cfg).1.workers = s.workers ∧
      (WorkerPool.execute s code rg rand th cfg).1.nextRequestId = s.nextRequestId + 1 ∧
      (WorkerPool.execute s code rg rand th cfg).2 =
        [PoolEffect.rejectNoWorkers (reqId s.nextRequestId)] := by
  intro s code rg rand th cfg hnr
  have hempty : readyWorkers s.workers = [] := by
    rw [readyWorkers, List.filter_eq_nil_iff]
    intro q hq
    rw [hnr q.2 (mem_enum_snd hq)]
    simp
  have hsel : selectWorkerRandom s.workers rand = none := by
    simp [selectWorkerRandom, hempty]
  rw [execute_no_worker s code rg rand th cfg hsel]
  exact ⟨rfl, rfl, rfl, rfl, rfl⟩

theorem c10_no_worker_effects_amended_witness :
    (WorkerPool.execute poolUnready "y" true 3 9 (some 1000)).1.pendingRequests =
      poolUnready.pendingRequests ∧
    (WorkerPool.execute poolUnready "y" true 3 9 (some 1000)).1.executionCount =
      poolUnready.executionCount ∧
    (WorkerPool.execute poolUnready "y" true 3 9 (some 1000)).1.workers =
      poolUnready.workers ∧
    (WorkerPool.execute poolUnready "y" true 3 9 (some 1000)).1.nextRequestId =
      poolUnready.nextRequestId + 1 ∧
    (WorkerPool.execute poolUnready "y" true 3 9 (some 1000)).2 =
      [PoolEffect.rejectNoWorkers (reqId poolUnready.nextRequestId)] :=
  c10_no_worker_effects_amended poolUnready "y" true 3 9 (some 1000) (by decide)

/-- C6: `terminate` empties the worker list after terminating every unit
unconditionally (no draining — the terminate effect is emitted for each worker
regardless of in-flight work), and every outstanding PendingRequest has its timer
cancelled and is rejected with the pool-terminated error, the pending map ending
empty so no caller is left waiting. -/
theorem c6_terminate_rejects_all (s : PoolState) :
    (WorkerPool.terminate s).1.workers = [] ∧
    (WorkerPool.terminate s).1.pendingRequests = [] ∧
    (∀ w ∈ s.workers,
      PoolEffect.terminateWorker w.workerId ∈ (WorkerPool.terminate s).2) ∧
    (∀ q ∈ s.pendingRequests,
      PoolEffect.clearTimer q.2.timeout ∈ (WorkerPool.terminate s).2 ∧
      PoolEffect.rejectTerminated q.1 ∈ (WorkerPool.terminate s).2) := by
  refine ⟨rfl, rfl, ?_, ?_⟩
  · intro w hw
    exact List.mem_append_left _ (List.mem_map_of_mem _ hw)
  · intro q hq
    constructor
    · refine List.mem_append_right _ ?_
      rw [List.mem_flatMap]
      exact ⟨q, hq, by simp⟩
    · refine List.mem_append_right _ ?_
      rw [List.mem_flatMap]
      exact ⟨q, hq, by simp⟩

theorem c6_terminate_rejects_all_witness :
    (WorkerPool.terminate poolWithPending).1.workers = [] ∧
    (WorkerPool.terminate poolWithPending).1.pendingRequests = [] ∧
    PoolEffect.terminateWorker 0 ∈ (WorkerPool.terminate poolWithPending).2 ∧
    PoolEffect.clearTimer 7 ∈ (WorkerPool.terminate poolWithPending).2 ∧
    PoolEffect.rejectTerminated "req-0" ∈ (WorkerPool.terminate poolWithPending).2 := by
  have h := c6_terminate_rejects_all poolWithPending
  have hq := h.2.2.2 ("req-0", { timeout := 7 }) (by decide)
  exact ⟨h.1, h.2.1, h.2.2.1 readyWorker (by decide), hq.1, hq.2⟩

/-- C7: whenever the configured worker count is greater than 1, every dispatched
request uses `resetGlobals = true` regardless of the caller's `reset_globals`
field and of the configured default; with worker count 1 or 0, the caller's value
applies, falling back to the default when omitted. -/
theorem c7_multiworker_always_resets :
    (∀ (body : ExecuteRequest) (dflt : Bool) (wc : Nat) (pc : Bool)
        (tgt : DispatchTarget) (code : String) (rg : Bool),
      wc > 1 →
      handleExecute body dflt wc pc = HandlerAction.dispatch tgt code rg →
      rg = true) ∧
    (∀ (body : ExecuteRequest) (dflt : Bool) (wc : Nat) (pc : Bool)
        (tgt : DispatchTarget) (code : String) (rg : Bool),
      wc ≤ 1 →
      handleExecute body dflt wc pc = HandlerAction.dispatch tgt code rg →
      rg = body.reset_globals.getD dflt) := by
  constructor
  · intro body dflt wc pc tgt code rg hwc heq
    unfold handleExecute at heq
    cases hc : jsTruthyStr body.code with
    | none =>
      rw [hc] at heq
      exact HandlerAction.noConfusion heq
    | some c =>
      rw [hc] at heq
      injection heq with h1 h2 h3
      rw [← h3, if_pos hwc]
  · intro body dflt wc pc tgt code rg hwc heq
    unfold handleExecute at heq
    cases hc : jsTruthyStr body.code with
    | none =>
      rw [hc] at heq
      exact HandlerAction.noConfusion heq
    | some c =>
      rw [hc] at heq
      injection heq with h1 h2 h3
      rw [← h3, if_neg (by omega)]

theorem c7_multiworker_always_resets_witness :
    true = true ∧
    false = (({ code := some "x", reset_globals := some false }
      : ExecuteRequest).reset_globals.getD true) := by
  constructor
  · exact c7_multiworker_always_resets.1
      { code := some "x", reset_globals := some false } false 2 true
      DispatchTarget.pool "x" true (by decide) (by decide)
  · exact c7_multiworker_always_resets.2
      { code := some "x", reset_globals := some false } true 1 true
      DispatchTarget.pool "x" false (by decide) (by decide)

/-- C8: over the lifetime of one dispatcher instance the request ids never
collide — in every reachable trace the allocated ids are exactly the images of
the strictly increasing counter values `0, 1, …` (so each `execute` call takes a
fresh id and no id is ever reused), the allocation list has no duplicates, and
the keys of the PendingRequest map are pairwise distinct. -/
theorem c8_request_ids_never_collide (ws : List WorkerState) (t : TraceState)
    (h : PoolReachable ws t) :
    t.allocated = (List.range t.pool.nextRequestId).map reqId ∧
    t.allocated.Nodup ∧
    (t.pool.pendingRequests.map Prod.fst).Nodup := by
  obtain ⟨h1, h2, _, _, _, _⟩ := poolInv_reachable h
  refine ⟨h1, ?_, h2⟩
  rw [h1]
  exact (List.nodup_range _).map reqId_injective

theorem c8_request_ids_never_collide_witness :
    trace2.allocated = (List.range trace2.pool.nextRequestId).map reqId ∧
    trace2.allocated.Nodup ∧
    (trace2.pool.pendingRequests.map Prod.fst).Nodup := by
  have hreach : PoolReachable [readyWorker] trace2 :=
    Relation.ReflTransGen.trans
      (Relation.ReflTransGen.single (PoolStep.exec trace0 "a" false 0 0 none))
      (Relation.ReflTransGen.single (PoolStep.exec trace1 "b" true 0 1 none))
  exact c8_request_ids_never_collide [readyWorker] trace2 hreach

/-- C3: in every reachable dispatcher trace, each request is concluded at most
once, and a request still pending has never been concluded — so the three
conclusion events (matching response, timeout, pool termination, the only effects
classified by `concludes`) are mutually exclusive per request; a unit's
result/error message for an id with no matching PendingRequest entry is silently
dropped, leaving the pool state untouched with no effects; and while an entry is
pending, the timeout transition concluding it (exactly once) is always enabled,
so exactly one of the three events occurs per request. -/
theorem c3_pending_concluded_exactly_once :
    (∀ (ws : List WorkerState) (t : TraceState), PoolReachable ws t →
      (∀ id, countConcl id t.log ≤ 1) ∧
      (∀ id, id ∈ t.pool.pendingRequests.map Prod.fst → countConcl id t.log = 0)) ∧
    (∀ (s : PoolState) (msg : WorkerMessage) (i : String),
      jsTruthyStr msg.id = some i →
      mapGet s.pendingRequests i = none →
      WorkerPool.handleWorkerMessage s msg = (s, [])) ∧
    (∀ (t : TraceState) (id : String) (p : PendingRequest),
      mapGet t.pool.pendingRequests id = some p →
      PoolStep t { pool := (WorkerPool.onTimeout t.pool id).1,
                   allocated := t.allocated,
                   log := t.log ++ (WorkerPool.onTimeout t.pool id).2 } ∧
      countConcl id (t.log ++ (WorkerPool.onTimeout t.pool id).2) =
        countConcl id t.log + 1) := by
  refine ⟨?_, ?_, ?_⟩
  · intro ws t h
    obtain ⟨_, _, _, h4, h5, _⟩ := poolInv_reachable h
    exact ⟨h5, h4⟩
  · intro s msg i hid hget
    rcases handleWorkerMessage_spec s msg with ⟨i', p, e, hid', hget', heq, _⟩ | heq
    · rw [hid] at hid'
      injection hid' with hii
      rw [← hii] at hget'
      rw [hget] at hget'
      exact Option.noConfusion hget'
    · exact heq
  · intro t id p hget
    refine ⟨PoolStep.timeoutFire t id p hget, ?_⟩
    rw [countConcl_append]
    have h1 : countConcl id (WorkerPool.onTimeout t.pool id).2 = 1 := by
      simp [WorkerPool.onTimeout, countConcl, List.countP_cons, concludes]
    omega

theorem c3_pending_concluded_exactly_once_witness :
    countConcl "req-0" trace1.log ≤ 1 ∧
    countConcl "req-0" trace1.log = 0 ∧
    WorkerPool.handleWorkerMessage emptyPool
      { type := MsgType.result, id := some "req-9" } = (emptyPool, []) ∧
    PoolStep trace1 { pool := (WorkerPool.onTimeout trace1.pool "req-0").1,
                      allocated := trace1.allocated,
                      log := trace1.log ++ (WorkerPool.onTimeout trace1.pool "req-0").2 } ∧
    countConcl "req-0" (trace1.log ++ (WorkerPool.onTimeout trace1.pool "req-0").2) =
      countConcl "req-0" trace1.log + 1 := by
  have hreach : PoolReachable [readyWorker] trace1 :=
    Relation.ReflTransGen.single (PoolStep.exec trace0 "a" false 0 0 none)
  have h1 := c3_pending_concluded_exactly_once.1 [readyWorker] trace1 hreach
  have h2 := c3_pending_concluded_exactly_once.2.1 emptyPool
    { type := MsgType.result, id := some "req-9" } "req-9" (by decide) (by decide)
  have h3 := c3_pending_concluded_exactly_once.2.2 trace1 "req-0"
    { timeout := 0 } (by decide)
  exact ⟨h1.1 "req-0", h1.2 "req-0" (by decide), h2, h3.1, h3.2⟩

end SandboxRepl
